import Mathlib

set_option maxHeartbeats 1000000

/-!
Shallow embedding of the tar-diff delta format: the streaming delta encoder
(deltaWriter) and the streaming applier (ApplyDelta) of pkg/tar-diff.

Modelling conventions:
* Go byte streams are lists of naturals below 256.
* Go strings are byte lists (Go strings are raw byte sequences; concatenation
  and comparison are byte-wise), so filenames and paths are List Nat as well.
* The zstd compression layer is content-transparent: DeltaWriter.out holds the
  bytes written to the compressed stream, in the form the applier sees them
  after decompression.
* The filesystem is a map from full paths to file contents. os.File handles
  are modelled by OldFile records carrying the file contents and the native
  read cursor, plus an identifier used to log open/close events, so that
  handle ownership can be stated.
* uint64 arithmetic wraps modulo 2 ^ 64; the int64(size) conversions in the
  applier branch on 2 ^ 63 exactly where the Go code's behaviour changes sign.
-/

namespace TarDiff

/-- binary.PutUvarint: unsigned LEB128 encoding of a uint64 value.
While x has more than seven bits, emit the low seven bits with the
continuation bit set, then continue with the rest. -/
def putUvarint (x : Nat) : List Nat :=
  if _h : x < 128 then [x]
  else (x % 128 + 128) :: putUvarint (x / 128)
termination_by x
decreasing_by exact Nat.div_lt_self (by omega) (by omega)

/-- binary.ReadUvarint: read a LEB128 value, at most 10 continuation steps,
rejecting a tenth byte that would overflow 64 bits (b greater than 1 at the
last position). Returns the value and the number of bytes consumed; the
accumulator x always occupies bits below the current shift s, so the bitwise
or of the Go code is addition here, and the uint64 shift truncation is the
explicit modulus 2 ^ 64. The fuel argument counts remaining loop iterations
(10 at top level, so fuel = 0 inside the loop body is index i = 9). -/
def readUvarintAux : Nat → List Nat → Nat → Nat → Nat → Option (Nat × Nat)
  | 0, _, _, _, _ => none
  | _ + 1, [], _, _, _ => none
  | fuel + 1, b :: rest, x, s, k =>
    if b < 128 then
      if fuel = 0 ∧ 1 < b then none
      else some (x + b * 2 ^ s % 2 ^ 64, k + 1)
    else readUvarintAux fuel rest (x + b % 128 * 2 ^ s % 2 ^ 64) (s + 7) (k + 1)

/-- binary.ReadUvarint over a byte list: value plus number of bytes consumed. -/
def readUvarint (l : List Nat) : Option (Nat × Nat) :=
  readUvarintAux 10 l 0 0 0

/-- deltaDataChunkSize = 4 * 1024 * 1024. -/
def deltaDataChunkSize : Nat := 4 * 1024 * 1024

/-- deltaHeader: the fixed magic, the bytes of "tardf1", a newline and a zero. -/
def deltaHeader : List Nat := [116, 97, 114, 100, 102, 49, 10, 0]

/-- deltaWriter. The Go field writer holds the zstd encoder and is set to nil
by Close; the Bool records whether it is still live. out is the byte stream
handed to that encoder (the decompressed view of the delta body; the 8-byte
header written by newDeltaWriter to the raw output precedes it on disk and is
prepended separately when a whole delta file is assembled). -/
structure DeltaWriter where
  writer : Bool
  out : List Nat
  buffer : List Nat
  currentFile : List Nat
  currentPos : Nat
deriving DecidableEq

/-- newDeltaWriter: fresh state after the header has been written to the raw
stream and the zstd encoder has been created; empty buffer, zero-value
currentFile (the empty Go string) and position 0. -/
def newDeltaWriter : DeltaWriter :=
  { writer := true, out := [], buffer := [], currentFile := [], currentPos := 0 }

/-- deltaWriter.writeOp: one tag byte, the size as an unsigned varint, then
the payload when one is given. size has Go type uint64. -/
def writeOp (d : DeltaWriter) (op : Nat) (size : Nat) (data : List Nat) : DeltaWriter :=
  { d with out := d.out ++ op :: (putUvarint (size % 2 ^ 64) ++ data) }

/-- deltaWriter.FlushBuffer: emit the pending buffer as one Data op, unless
it is empty. -/
def FlushBuffer (d : DeltaWriter) : DeltaWriter :=
  if d.buffer = [] then d
  else { writeOp d 0 d.buffer.length d.buffer with buffer := [] }

/-- deltaWriter.Close: a no-op when the writer is already nil; otherwise
close the zstd encoder and set the writer to nil. The pending buffer is not
touched. -/
def Close (d : DeltaWriter) : DeltaWriter :=
  if d.writer = false then d else { d with writer := false }

/-- deltaWriter.WriteContent: append to the pending buffer and flush once the
buffer has reached deltaDataChunkSize. -/
def WriteContent (d : DeltaWriter) (data : List Nat) : DeltaWriter :=
  let d1 : DeltaWriter := { d with buffer := d.buffer ++ data }
  if deltaDataChunkSize ≤ d1.buffer.length then FlushBuffer d1 else d1

/-- deltaWriter.SetCurrentFile: when the name differs from the current file,
flush the pending buffer, emit Open(name), record the name and reset the
tracked position; otherwise do nothing. -/
def SetCurrentFile (d : DeltaWriter) (filename : List Nat) : DeltaWriter :=
  if d.currentFile ≠ filename then
    let d1 := FlushBuffer d
    let d2 := writeOp d1 1 filename.length filename
    { d2 with currentFile := filename, currentPos := 0 }
  else d

/-- deltaWriter.Seek: elided when the tracked position already equals pos;
otherwise flush and emit Seek(pos). -/
def Seek (d : DeltaWriter) (pos : Nat) : DeltaWriter :=
  if d.currentPos = pos then d
  else
    let d1 := FlushBuffer d
    let d2 := writeOp d1 4 pos []
    { d2 with currentPos := pos }

/-- deltaWriter.SeekForward: advance the tracked position (uint64 wrap), flush
and emit an absolute Seek unconditionally. -/
def SeekForward (d : DeltaWriter) (pos : Nat) : DeltaWriter :=
  let d1 : DeltaWriter := { d with currentPos := (d.currentPos + pos) % 2 ^ 64 }
  let d2 := FlushBuffer d1
  writeOp d2 4 d2.currentPos []

/-- deltaWriter.CopyFile: flush, emit Copy(size), advance the tracked
position. -/
def CopyFile (d : DeltaWriter) (size : Nat) : DeltaWriter :=
  let d1 := FlushBuffer d
  let d2 := writeOp d1 2 size []
  { d2 with currentPos := (d2.currentPos + size) % 2 ^ 64 }

/-- deltaWriter.WriteAddContent: flush, emit AddData(len(data), data), advance
the tracked position. -/
def WriteAddContent (d : DeltaWriter) (data : List Nat) : DeltaWriter :=
  let d1 := FlushBuffer d
  let d2 := writeOp d1 3 data.length data
  { d2 with currentPos := (d2.currentPos + data.length) % 2 ^ 64 }

/-- deltaWriter.CopyFileAt: Seek then CopyFile. -/
def CopyFileAt (d : DeltaWriter) (offset size : Nat) : DeltaWriter :=
  CopyFile (Seek d offset) size

/-- deltaWriter.WriteOldFile: SetCurrentFile, Seek 0, CopyFile. -/
def WriteOldFile (d : DeltaWriter) (filename : List Nat) (size : Nat) : DeltaWriter :=
  CopyFile (Seek (SetCurrentFile d filename) 0) size

/-- deltaWriter.Write: the io.Writer adaptation, same as WriteContent. -/
def Write (d : DeltaWriter) (data : List Nat) : DeltaWriter :=
  WriteContent d data

/-- The five wire operations (tags 0..4 in declaration order). -/
inductive DeltaOp where
  | data (payload : List Nat)
  | openFile (name : List Nat)
  | copy (size : Nat)
  | addData (payload : List Nat)
  | seek (pos : Nat)
deriving DecidableEq

/-- Canonical wire encoding of one operation, as produced by writeOp at each
encoder call site. -/
def encodeOp : DeltaOp → List Nat
  | .data bs => 0 :: (putUvarint bs.length ++ bs)
  | .openFile n => 1 :: (putUvarint n.length ++ n)
  | .copy n => 2 :: putUvarint n
  | .addData bs => 3 :: (putUvarint bs.length ++ bs)
  | .seek n => 4 :: putUvarint n

/-- Open and close events on old-file handles, logged in order, so that
handle ownership is observable in the model. -/
inductive DeltaEvent where
  | opened (id : Nat)
  | closed (id : Nat)
deriving DecidableEq

/-- An open old-file handle: ghost identifier, file contents, read cursor. -/
structure OldFile where
  id : Nat
  contents : List Nat
  pos : Nat
deriving DecidableEq

/-- Decoder state: bytes written to dst, the currently open old file (nil or
one handle), the next ghost handle id, and the event log. -/
structure ApplyState where
  output : List Nat
  currentFile : Option OldFile
  nextId : Nat
  events : List DeltaEvent
deriving DecidableEq

/-- The error exits of ApplyDelta. readError covers every failed io read
(short header, truncated varint, truncated payload, short old-file read). -/
inductive ApplyError where
  | readError
  | invalidFormat
  | openFailed
  | noCurrentFile
  | seekFailed
  | unexpectedOp (op : Nat)
deriving DecidableEq

/-- The op loop of ApplyDelta, running over the decompressed byte stream.
Each iteration reads a tag byte, then a varint, then dispatches:
* Data: io.CopyN(dst, r, int64(size)); a non-positive int64 copies nothing,
  a short source writes what it has and fails;
* Open: read the name, build extractedDir + slash + name, close the previous
  handle if any, then open the path (on failure the Go currentFile variable
  has been assigned nil);
* Copy: requires a current file, then io.CopyN from the handle;
* AddData: requires a current file, reads size stream bytes and size old-file
  bytes and writes their byte-wise sum modulo 256;
* Seek: requires a current file; int64(size) negative makes the seek fail,
  otherwise the cursor moves to the absolute offset;
* anything else is an unexpected op.
Clean end of input at a tag-byte read terminates the pass successfully. -/
def applyLoop (fs : List Nat → Option (List Nat)) (extractedDir : List Nat) :
    List Nat → ApplyState → ApplyState × Option ApplyError
  | [], st => (st, none)
  | op :: rest, st =>
    match readUvarint rest with
    | none => (st, some .readError)
    | some (size, k) =>
      if op = 0 then
        if size = 0 ∨ 2 ^ 63 ≤ size then applyLoop fs extractedDir (rest.drop k) st
        else if (rest.drop k).length < size then
          ({ st with output := st.output ++ rest.drop k }, some .readError)
        else
          applyLoop fs extractedDir ((rest.drop k).drop size)
            { st with output := st.output ++ (rest.drop k).take size }
      else if op = 1 then
        if (rest.drop k).length < size then (st, some .readError)
        else
          match fs (extractedDir ++ 47 :: (rest.drop k).take size) with
          | none =>
            ({ st with
                 events := st.events ++ (match st.currentFile with
                   | some f => [DeltaEvent.closed f.id]
                   | none => []),
                 currentFile := none }, some .openFailed)
          | some c =>
            applyLoop fs extractedDir ((rest.drop k).drop size)
              { st with
                  events := (st.events ++ (match st.currentFile with
                    | some f => [DeltaEvent.closed f.id]
                    | none => [])) ++ [DeltaEvent.opened st.nextId],
                  currentFile := some ⟨st.nextId, c, 0⟩,
                  nextId := st.nextId + 1 }
      else if op = 2 then
        match st.currentFile with
        | none => (st, some .noCurrentFile)
        | some f =>
          if size = 0 ∨ 2 ^ 63 ≤ size then applyLoop fs extractedDir (rest.drop k) st
          else if (f.contents.drop f.pos).length < size then
            ({ st with output := st.output ++ f.contents.drop f.pos,
                       currentFile := some { f with pos := f.contents.length } },
              some .readError)
          else
            applyLoop fs extractedDir (rest.drop k)
              { st with output := st.output ++ (f.contents.drop f.pos).take size,
                        currentFile := some { f with pos := f.pos + size } }
      else if op = 3 then
        match st.currentFile with
        | none => (st, some .noCurrentFile)
        | some f =>
          if (rest.drop k).length < size then (st, some .readError)
          else if (f.contents.drop f.pos).length < size then (st, some .readError)
          else
            applyLoop fs extractedDir ((rest.drop k).drop size)
              { st with
                  output := st.output ++
                    List.zipWith (fun a b => (a + b) % 256)
                      ((rest.drop k).take size) ((f.contents.drop f.pos).take size),
                  currentFile := some { f with pos := f.pos + size } }
      else if op = 4 then
        match st.currentFile with
        | none => (st, some .noCurrentFile)
        | some f =>
          if 2 ^ 63 ≤ size then (st, some .seekFailed)
          else applyLoop fs extractedDir (rest.drop k)
            { st with currentFile := some { f with pos := size } }
      else (st, some (.unexpectedOp op))
termination_by l _ => l.length
decreasing_by
  all_goals simp_wf
  all_goals omega

/-- The decoder state at entry of the loop: nothing written, no handle. -/
def initialApplyState : ApplyState :=
  { output := [], currentFile := none, nextId := 0, events := [] }

/-- ApplyDelta: read and verify the 8-byte header before constructing the
zstd decoder, then run the op loop on the decompressed remainder.
The Go function defers maybeClose(currentFile) right after declaring
var currentFile; a deferred call evaluates its argument at the point of the
defer statement, when currentFile is still nil, so the deferred maybeClose
receives the nil handle and closes nothing on any exit path (maybeClose has
no nil check and calls Close on the nil os.File, which merely returns
ErrInvalid). Consequently no close event is appended here on return. -/
def ApplyDelta (fs : List Nat → Option (List Nat)) (delta : List Nat)
    (extractedDir : List Nat) : ApplyState × Option ApplyError :=
  if delta.length < 8 then (initialApplyState, some .readError)
  else if delta.take 8 ≠ deltaHeader then (initialApplyState, some .invalidFormat)
  else applyLoop fs extractedDir (delta.drop 8) initialApplyState

/-- The encoder verbs a planner may call, in the claims' naming. -/
inductive Verb where
  | writeLiteral (bs : List Nat)
  | setCurrentFile (name : List Nat)
  | seek (pos : Nat)
  | seekForward (off : Nat)
  | copy (size : Nat)
  | writeAddDelta (bs : List Nat)
deriving DecidableEq

/-- Dispatch one verb to the deltaWriter method it names. -/
def runVerb (d : DeltaWriter) : Verb → DeltaWriter
  | .writeLiteral bs => WriteContent d bs
  | .setCurrentFile n => SetCurrentFile d n
  | .seek p => Seek d p
  | .seekForward p => SeekForward d p
  | .copy s => CopyFile d s
  | .writeAddDelta bs => WriteAddContent d bs

/-- Run a verb sequence against an encoder state. -/
def runPlan (d : DeltaWriter) : List Verb → DeltaWriter
  | [] => d
  | v :: vs => runPlan (runVerb d v) vs

/-- Encode a plan the way the claims describe: run the verbs on a fresh
writer, Close it, and prepend the on-disk header. -/
def encodePlan (vs : List Verb) : List Nat :=
  deltaHeader ++ (Close (runPlan newDeltaWriter vs)).out

/-- A fold of WriteContent calls, for the literal-buffering statements. -/
def writeLiterals (d : DeltaWriter) : List (List Nat) → DeltaWriter
  | [] => d
  | bs :: bss => writeLiterals (WriteContent d bs) bss

/-- Modelled from the spec: the reference state tracked by the verb-level
semantics, with an optional current file (unset initially), a position and
the output produced so far. -/
structure PlanState where
  cur : Option (List Nat)
  pos : Nat
  output : List Nat

/-- Modelled from the spec: contents of the current old file of a plan state
under the old-file tree T (empty when unset or missing). -/
def curContents (T : List Nat → Option (List Nat)) (σ : PlanState) : List Nat :=
  match σ.cur with
  | some n => (T n).getD []
  | none => []

/-- Modelled from the spec: the byte stream implied by one verb, following
the spec wording for each encoder verb (elision included). -/
def specStep (T : List Nat → Option (List Nat)) (σ : PlanState) : Verb → PlanState
  | .writeLiteral bs => { σ with output := σ.output ++ bs }
  | .setCurrentFile n =>
    if σ.cur = some n then σ else { σ with cur := some n, pos := 0 }
  | .seek p => { σ with pos := p }
  | .seekForward off => { σ with pos := σ.pos + off }
  | .copy s =>
    { σ with output := σ.output ++ ((curContents T σ).drop σ.pos).take s,
             pos := σ.pos + s }
  | .writeAddDelta bs =>
    { σ with
        output := σ.output ++ List.zipWith (fun a b => (a + b) % 256) bs
            (((curContents T σ).drop σ.pos).take bs.length),
        pos := σ.pos + bs.length }

/-- Modelled from the spec: run of the verb-level reference semantics. -/
def specRun (T : List Nat → Option (List Nat)) (σ : PlanState) : List Verb → PlanState
  | [] => σ
  | v :: vs => specRun T (specStep T σ v) vs

/-- Modelled from the spec: the byte stream implied by a verb sequence. -/
def impliedOutput (T : List Nat → Option (List Nat)) (vs : List Verb) : List Nat :=
  (specRun T { cur := none, pos := 0, output := [] } vs).output

/-- Validity of one verb against the tree T in a given plan state: copies,
add-deltas and seeks need an established current file that exists in T, all
referenced ranges stay inside that file, and every size fits the int64 and
uint64 conversions the wire format performs. -/
def validStep (T : List Nat → Option (List Nat)) (σ : PlanState) : Verb → Prop
  | .writeLiteral bs => bs.length < 2 ^ 62
  | .setCurrentFile n =>
    n ≠ [] ∧ n.length < 2 ^ 63 ∧ (match T n with
      | some c => c.length < 2 ^ 63
      | none => False)
  | .seek p => σ.cur ≠ none ∧ p < 2 ^ 63
  | .seekForward off => σ.cur ≠ none ∧ σ.pos + off < 2 ^ 63
  | .copy s =>
    match σ.cur with
    | some n =>
      (match T n with
        | some c => σ.pos + s ≤ c.length
        | none => False)
    | none => False
  | .writeAddDelta bs =>
    match σ.cur with
    | some n =>
      (match T n with
        | some c => σ.pos + bs.length ≤ c.length
        | none => False)
    | none => False

/-- A valid plan: every verb valid in the reference state it runs in. -/
def ValidPlan (T : List Nat → Option (List Nat)) : PlanState → List Verb → Prop
  | _, [] => True
  | σ, v :: vs => validStep T σ v ∧ ValidPlan T (specStep T σ v) vs

/-- Whether an operation requires an established current-file context. -/
def needsContext : DeltaOp → Bool
  | .copy _ => true
  | .addData _ => true
  | .seek _ => true
  | _ => false

/-- The value carried in an operation's varint. -/
def opArg : DeltaOp → Nat
  | .data bs => bs.length
  | .openFile n => n.length
  | .copy n => n
  | .addData bs => bs.length
  | .seek n => n

/-- The old-file tree seen through the extraction root: name n resolves to
the filesystem entry at extractedDir, slash, n, exactly as the applier's Open
builds its path. -/
def oldTree (fs : List Nat → Option (List Nat)) (dir : List Nat) :
    List Nat → Option (List Nat) :=
  fun n => fs (dir ++ 47 :: n)

/-- Simulation invariant tying a reference plan state, an encoder state and a
decoder state together mid-plan: the decoder has written everything except
the encoder's pending literal buffer, the pending buffer is below the chunk
threshold, and the current-file data agree (same name, same position, the
decoder holding a handle on the file's contents at that position). -/
def Inv (fs : List Nat → Option (List Nat)) (dir : List Nat)
    (σ : PlanState) (d : DeltaWriter) (s : ApplyState) : Prop :=
  d.buffer.length < deltaDataChunkSize ∧
  s.output ++ d.buffer = σ.output ∧
  ((σ.cur = none ∧ d.currentFile = [] ∧ s.currentFile = none) ∨
   (∃ n c i, σ.cur = some n ∧ n ≠ [] ∧ d.currentFile = n ∧ σ.pos < 2 ^ 63 ∧
      d.currentPos = σ.pos ∧ fs (dir ++ 47 :: n) = some c ∧ c.length < 2 ^ 63 ∧
      s.currentFile = some ⟨i, c, σ.pos⟩))

/-! ### Varint round trip -/

lemma readUvarintAux_putUvarint (v : Nat) :
    ∀ fuel x s k rest, 1 ≤ fuel → s + 7 * fuel = 70 → v < 2 ^ (7 * fuel - 6) →
      readUvarintAux fuel (putUvarint v ++ rest) x s k =
        some (x + v * 2 ^ s, k + (putUvarint v).length) := by
  induction v using Nat.strong_induction_on with
  | _ v ih =>
    intro fuel x s k rest h1 h2 h3
    obtain ⟨f, rfl⟩ : ∃ f, fuel = f + 1 := ⟨fuel - 1, by omega⟩
    by_cases hv : v < 128
    · rw [putUvarint, dif_pos hv]
      simp only [List.cons_append, List.nil_append, readUvarintAux, List.length_cons,
        List.length_nil]
      have hvs : v * 2 ^ s < 2 ^ 64 := by
        calc v * 2 ^ s < 2 ^ (7 * (f + 1) - 6) * 2 ^ s :=
              (Nat.mul_lt_mul_right (Nat.two_pow_pos s)).mpr h3
          _ = 2 ^ (7 * (f + 1) - 6 + s) := by rw [← pow_add]
          _ = 2 ^ 64 := by congr 1; omega
      rw [if_pos hv]
      by_cases hf : f = 0
      · subst hf
        have hs : s = 63 := by omega
        have hv1 : ¬ 1 < v := by
          subst hs
          have : v < 2 := by simpa using h3
          omega
        rw [if_neg (by simp [hv1])]
        rw [Nat.mod_eq_of_lt hvs]
      · rw [if_neg (by simp [hf])]
        rw [Nat.mod_eq_of_lt hvs]
    · rw [putUvarint, dif_neg hv]
      have hf1 : 1 ≤ f := by
        by_contra hc
        have : f = 0 := by omega
        subst this
        have : v < 2 ^ 1 := by simpa using h3
        omega
      have hb : ¬ v % 128 + 128 < 128 := by omega
      simp only [List.cons_append, readUvarintAux, List.length_cons]
      rw [if_neg hb]
      have hmod : (v % 128 + 128) % 128 = v % 128 := by omega
      have h128 : (128 : Nat) = 2 ^ 7 := by norm_num
      have hsmall : v % 128 * 2 ^ s < 2 ^ 64 := by
        calc v % 128 * 2 ^ s < 128 * 2 ^ s :=
              (Nat.mul_lt_mul_right (Nat.two_pow_pos s)).mpr (Nat.mod_lt v (by omega))
          _ = 2 ^ (7 + s) := by rw [pow_add, h128]
          _ ≤ 2 ^ 64 := Nat.pow_le_pow_right (by omega) (by omega)
      have hdiv : v / 128 < 2 ^ (7 * f - 6) := by
        have h7 : 7 * (f + 1) - 6 = (7 * f - 6) + 7 := by omega
        rw [h7] at h3
        have : v < 2 ^ (7 * f - 6) * 128 := by
          calc v < 2 ^ ((7 * f - 6) + 7) := h3
            _ = 2 ^ (7 * f - 6) * 128 := by rw [pow_add, h128]
        omega
      have hrec := ih (v / 128) (Nat.div_lt_self (by omega) (by omega)) f
        (x + v % 128 * 2 ^ s % 2 ^ 64) (s + 7) (k + 1) rest hf1 (by omega) hdiv
      simp only [List.append_eq] at hrec ⊢
      rw [hmod, hrec, Nat.mod_eq_of_lt hsmall]
      have hsum : v % 128 * 2 ^ s + v / 128 * 2 ^ (s + 7) = v * 2 ^ s := by
        have hp : (2 : Nat) ^ (s + 7) = 2 ^ s * 128 := by
          rw [pow_add, h128]
        calc v % 128 * 2 ^ s + v / 128 * 2 ^ (s + 7)
            = (v % 128 + v / 128 * 128) * 2 ^ s := by rw [hp]; ring
          _ = v * 2 ^ s := by rw [Nat.mod_add_div' v 128]
      congr 1
      rw [Prod.mk.injEq]
      exact ⟨by omega, by omega⟩

lemma readUvarint_putUvarint (v : Nat) (rest : List Nat) (h : v < 2 ^ 64) :
    readUvarint (putUvarint v ++ rest) = some (v, (putUvarint v).length) := by
  have h64 : v < 2 ^ (7 * 10 - 6) := by norm_num at h ⊢; omega
  have := readUvarintAux_putUvarint v 10 0 0 0 rest (by omega) (by omega) h64
  simpa [readUvarint] using this

/-! ### Decoder step lemmas -/

lemma applyLoop_nil (fs : List Nat → Option (List Nat)) (dir : List Nat) (st : ApplyState) :
    applyLoop fs dir [] st = (st, none) := by
  rw [applyLoop]

lemma applyLoop_data (fs : List Nat → Option (List Nat)) (dir bs rest : List Nat)
    (st : ApplyState) (h : bs.length < 2 ^ 63) :
    applyLoop fs dir (encodeOp (.data bs) ++ rest) st =
      applyLoop fs dir rest { st with output := st.output ++ bs } := by
  have henc : encodeOp (DeltaOp.data bs) ++ rest = 0 :: (putUvarint bs.length ++ (bs ++ rest)) := by
    simp [encodeOp]
  rw [henc, applyLoop, readUvarint_putUvarint bs.length (bs ++ rest) (by omega)]
  simp only [List.drop_left]
  by_cases hz : bs.length = 0
  · rw [if_pos trivial, if_pos (Or.inl hz)]
    have : bs = [] := List.length_eq_zero.mp hz
    subst this
    simp
  · rw [if_pos trivial, if_neg (by omega),
      if_neg (by simp only [List.length_append]; omega)]
    simp only [List.take_left]

lemma applyLoop_open (fs : List Nat → Option (List Nat)) (dir name rest : List Nat)
    (st : ApplyState) (h : name.length < 2 ^ 64) :
    applyLoop fs dir (encodeOp (.openFile name) ++ rest) st =
      match fs (dir ++ 47 :: name) with
      | none =>
        ({ st with
             events := st.events ++ (match st.currentFile with
               | some f => [DeltaEvent.closed f.id]
               | none => []),
             currentFile := none }, some .openFailed)
      | some c =>
        applyLoop fs dir rest
          { st with
              events := (st.events ++ (match st.currentFile with
                | some f => [DeltaEvent.closed f.id]
                | none => [])) ++ [DeltaEvent.opened st.nextId],
              currentFile := some ⟨st.nextId, c, 0⟩,
              nextId := st.nextId + 1 } := by
  have henc : encodeOp (DeltaOp.openFile name) ++ rest =
      1 :: (putUvarint name.length ++ (name ++ rest)) := by
    simp [encodeOp]
  rw [henc, applyLoop, readUvarint_putUvarint name.length (name ++ rest) h]
  simp only [List.drop_left]
  rw [if_neg (by omega), if_pos trivial,
    if_neg (by simp only [List.length_append]; omega)]
  simp only [List.take_left]

lemma applyLoop_copy (fs : List Nat → Option (List Nat)) (dir rest : List Nat)
    (st : ApplyState) (f : OldFile) (n : Nat) (hf : st.currentFile = some f)
    (hn : n < 2 ^ 63) (hb : f.pos + n ≤ f.contents.length) :
    applyLoop fs dir (encodeOp (.copy n) ++ rest) st =
      applyLoop fs dir rest
        { st with output := st.output ++ (f.contents.drop f.pos).take n,
                  currentFile := some { f with pos := f.pos + n } } := by
  have henc : encodeOp (DeltaOp.copy n) ++ rest = 2 :: (putUvarint n ++ rest) := by
    simp [encodeOp]
  rw [henc, applyLoop, readUvarint_putUvarint n rest (by omega)]
  simp only [List.drop_left, hf]
  by_cases hz : n = 0
  · subst hz
    rw [if_neg (by omega), if_neg (by omega), if_pos trivial]
    simp only [if_pos (Or.inl rfl)]
    obtain ⟨o, cf, ni, ev⟩ := st
    obtain ⟨fid, fc, fp⟩ := f
    simp_all
  · rw [if_neg (by omega), if_neg (by omega), if_pos trivial]
    rw [if_neg (by omega)]
    rw [if_neg (by simp only [List.length_drop]; omega)]

lemma applyLoop_addData (fs : List Nat → Option (List Nat)) (dir bs rest : List Nat)
    (st : ApplyState) (f : OldFile) (hf : st.currentFile = some f)
    (h64 : bs.length < 2 ^ 64) (hb : f.pos + bs.length ≤ f.contents.length) :
    applyLoop fs dir (encodeOp (.addData bs) ++ rest) st =
      applyLoop fs dir rest
        { st with
            output := st.output ++ List.zipWith (fun a b => (a + b) % 256) bs
              ((f.contents.drop f.pos).take bs.length),
            currentFile := some { f with pos := f.pos + bs.length } } := by
  have henc : encodeOp (DeltaOp.addData bs) ++ rest =
      3 :: (putUvarint bs.length ++ (bs ++ rest)) := by
    simp [encodeOp]
  rw [henc, applyLoop, readUvarint_putUvarint bs.length (bs ++ rest) h64]
  simp only [List.drop_left, hf]
  rw [if_neg (by omega), if_neg (by omega), if_neg (by omega), if_pos trivial]
  rw [if_neg (by simp only [List.length_append]; omega)]
  rw [if_neg (by simp only [List.length_drop]; omega)]
  simp only [List.take_left]

lemma applyLoop_seekOp (fs : List Nat → Option (List Nat)) (dir rest : List Nat)
    (st : ApplyState) (f : OldFile) (p : Nat) (hf : st.currentFile = some f)
    (hp : p < 2 ^ 63) :
    applyLoop fs dir (encodeOp (.seek p) ++ rest) st =
      applyLoop fs dir rest { st with currentFile := some { f with pos := p } } := by
  have henc : encodeOp (DeltaOp.seek p) ++ rest = 4 :: (putUvarint p ++ rest) := by
    simp [encodeOp]
  rw [henc, applyLoop, readUvarint_putUvarint p rest (by omega)]
  simp only [List.drop_left, hf]
  rw [if_neg (by omega), if_neg (by omega), if_neg (by omega), if_neg (by omega),
    if_pos trivial]
  rw [if_neg (by omega)]

lemma applyLoop_noContext (fs : List Nat → Option (List Nat)) (dir rest : List Nat)
    (st : ApplyState) (o : DeltaOp) (hf : st.currentFile = none)
    (hc : needsContext o = true) (ha : opArg o < 2 ^ 64) :
    applyLoop fs dir (encodeOp o ++ rest) st = (st, some .noCurrentFile) := by
  cases o with
  | data bs => simp [needsContext] at hc
  | openFile n => simp [needsContext] at hc
  | copy n =>
    have henc : encodeOp (DeltaOp.copy n) ++ rest = 2 :: (putUvarint n ++ rest) := by
      simp [encodeOp]
    rw [henc, applyLoop, readUvarint_putUvarint n rest (by simpa [opArg] using ha)]
    simp only [hf]
    rw [if_neg (by omega), if_neg (by omega), if_pos trivial]
  | addData bs =>
    have henc : encodeOp (DeltaOp.addData bs) ++ rest =
        3 :: (putUvarint bs.length ++ (bs ++ rest)) := by
      simp [encodeOp]
    rw [henc, applyLoop, readUvarint_putUvarint bs.length (bs ++ rest)
      (by simpa [opArg] using ha)]
    simp only [hf]
    rw [if_neg (by omega), if_neg (by omega), if_neg (by omega), if_pos trivial]
  | seek n =>
    have henc : encodeOp (DeltaOp.seek n) ++ rest = 4 :: (putUvarint n ++ rest) := by
      simp [encodeOp]
    rw [henc, applyLoop, readUvarint_putUvarint n rest (by simpa [opArg] using ha)]
    simp only [hf]
    rw [if_neg (by omega), if_neg (by omega), if_neg (by omega), if_neg (by omega),
      if_pos trivial]

/-! ### Header handling, encoder claims -/

lemma ApplyDelta_header (fs : List Nat → Option (List Nat)) (body dir : List Nat) :
    ApplyDelta fs (deltaHeader ++ body) dir = applyLoop fs dir body initialApplyState := by
  rw [ApplyDelta]
  rw [if_neg (by simp [deltaHeader])]
  rw [if_neg (by simp [deltaHeader])]
  have hdrop : (deltaHeader ++ body).drop 8 = body := by simp [deltaHeader]
  rw [hdrop]

lemma SetCurrentFile_currentFile (d : DeltaWriter) (name : List Nat) :
    (SetCurrentFile d name).currentFile = name := by
  rw [SetCurrentFile]
  split
  · rfl
  · simp_all

lemma Seek_currentPos (d : DeltaWriter) (pos : Nat) :
    (Seek d pos).currentPos = pos := by
  rw [Seek]
  split
  · simp_all
  · rfl

/-- C8: for every encoder state, name and position, calling SetCurrentFile
with the same name twice in a row, or Seek with the same position twice in a
row, produces the same wire output as calling it once: the second call is
elided and leaves the whole encoder state unchanged. -/
theorem setCurrentFile_seek_idempotent (d : DeltaWriter) (name : List Nat) (pos : Nat) :
    SetCurrentFile (SetCurrentFile d name) name = SetCurrentFile d name ∧
    Seek (Seek d pos) pos = Seek d pos := by
  constructor
  · conv_lhs => rw [SetCurrentFile]
    rw [if_neg (by simp [SetCurrentFile_currentFile])]
  · conv_lhs => rw [Seek]
    rw [if_pos (Seek_currentPos d pos)]

/-- C2, evaluated at the failing input: an encoder holding the pending
byte 42 is closed; Close emits no final Data operation (out stays empty),
leaves the pending buffer behind, and only releases the compressor; the
second Close is a no-op. The claim (and the spec) say the pending buffer is
flushed as a final Data emission before the compressor is finalized; the
code's Close never calls FlushBuffer. -/
theorem close_does_not_flush_buffer :
    (WriteContent newDeltaWriter [42]).buffer = [42] ∧
    (Close (WriteContent newDeltaWriter [42])).out = [] ∧
    (Close (WriteContent newDeltaWriter [42])).buffer = [42] ∧
    (Close (WriteContent newDeltaWriter [42])).writer = false ∧
    Close (Close (WriteContent newDeltaWriter [42])) = Close (WriteContent newDeltaWriter [42]) := by
  decide

/-- C1, evaluated at the failing input: the one-verb plan write_literal [42]
is encoded and closed exactly as the claim describes; the resulting delta is
the bare header, applying it succeeds with empty output, while the byte
stream implied by the plan is [42]. The round trip fails because Close drops
the pending literal buffer; with an explicit FlushBuffer before Close the
round trip holds (theorem applyDelta_roundTrip below). -/
theorem close_drops_trailing_literal :
    ∀ fs : List Nat → Option (List Nat), ∀ dir : List Nat,
      ApplyDelta fs (encodePlan [Verb.writeLiteral [42]]) dir = (initialApplyState, none) ∧
      impliedOutput (fun _ => none) [Verb.writeLiteral [42]] = [42] ∧
      initialApplyState.output = [] := by
  intro fs dir
  refine ⟨?_, by decide, rfl⟩
  have h : encodePlan [Verb.writeLiteral [42]] = deltaHeader ++ [] := by decide
  rw [h, ApplyDelta_header, applyLoop_nil]

/-- C4 counterexample: on a freshly created encoder the current-file name is
the zero-value Go string, i.e. the empty byte string, so SetCurrentFile with
the empty name is elided: the state is unchanged and no Open operation is
emitted, contradicting the claim's "including the empty string". -/
theorem setCurrentFile_empty_name_elided :
    SetCurrentFile newDeltaWriter [] = newDeltaWriter ∧
    (SetCurrentFile newDeltaWriter []).out = [] := by
  decide

/-- C4 as amended: for every name other than the empty string (the initial
current-file value), SetCurrentFile on a fresh encoder is not elided: it
flushes the (empty) pending buffer, emits exactly one Open(name) operation,
sets the current file to name and resets the position tracker to 0. -/
theorem setCurrentFile_fresh_emits_open (name : List Nat) (h : name ≠ [])
    (h64 : name.length < 2 ^ 64) :
    SetCurrentFile newDeltaWriter name =
      { writer := true, out := encodeOp (.openFile name), buffer := [],
        currentFile := name, currentPos := 0 } := by
  rw [SetCurrentFile]
  rw [if_pos (by simp [newDeltaWriter]; exact h)]
  simp [FlushBuffer, newDeltaWriter, writeOp, encodeOp]
  congr 1
  omega

/-- Witness for setCurrentFile_fresh_emits_open at name = [97]. -/
theorem setCurrentFile_fresh_emits_open_witness :
    ([97] : List Nat) ≠ [] ∧ ([97] : List Nat).length < 2 ^ 64 ∧
    SetCurrentFile newDeltaWriter [97] =
      { writer := true, out := encodeOp (.openFile [97]), buffer := [],
        currentFile := [97], currentPos := 0 } :=
  ⟨by decide, by decide, setCurrentFile_fresh_emits_open [97] (by decide) (by decide)⟩

/-- C6: a stream of at least 8 bytes whose first 8 bytes differ from the
fixed magic is rejected by ApplyDelta with the format error, before any
decompression and with no operation processed (the returned state is the
initial one: no output, no events, no handle); only a stream starting with
the exact 8-byte magic proceeds past the header to the op loop over the
decompressed remainder. -/
theorem applyDelta_rejects_bad_header (fs : List Nat → Option (List Nat))
    (delta dir : List Nat) (hlen : 8 ≤ delta.length) :
    (delta.take 8 ≠ deltaHeader →
      ApplyDelta fs delta dir = (initialApplyState, some .invalidFormat)) ∧
    (delta.take 8 = deltaHeader →
      ApplyDelta fs delta dir = applyLoop fs dir (delta.drop 8) initialApplyState) := by
  constructor <;> intro h <;> rw [ApplyDelta, if_neg (by omega)]
  · rw [if_pos h]
  · rw [if_neg (by simp [h])]

/-- Witness for applyDelta_rejects_bad_header on a concrete 8-byte stream
with a wrong magic. -/
theorem applyDelta_rejects_bad_header_witness :
    8 ≤ ([1, 2, 3, 4, 5, 6, 7, 8] : List Nat).length ∧
    ApplyDelta (fun _ => none) [1, 2, 3, 4, 5, 6, 7, 8] [] =
      (initialApplyState, some .invalidFormat) :=
  ⟨by decide,
    (applyDelta_rejects_bad_header (fun _ => none) [1, 2, 3, 4, 5, 6, 7, 8] []
      (by decide)).1 (by decide)⟩

/-- C3, evaluated at the failing input: a delta consisting of the header and
one Open of file a (present in the tree) is applied successfully, yet the
event log shows the handle was opened and never closed. The claim (and the
spec) say the handle open at exit is released on every exit path; the code's
defer maybeClose(currentFile) evaluated its argument while currentFile was
still nil, so the deferred call closes nothing and the final handle leaks. -/
theorem applyDelta_leaks_final_handle :
    ApplyDelta (fun p => if p = [100, 47, 97] then some [] else none)
        (deltaHeader ++ encodeOp (.openFile [97])) [100] =
      ({ output := [], currentFile := some ⟨0, [], 0⟩, nextId := 1,
         events := [DeltaEvent.opened 0] }, none) ∧
    DeltaEvent.closed 0 ∉ [DeltaEvent.opened 0] := by
  refine ⟨?_, by decide⟩
  rw [ApplyDelta_header]
  rw [show encodeOp (DeltaOp.openFile [97]) = encodeOp (DeltaOp.openFile [97]) ++ []
    from (List.append_nil _).symm]
  rw [applyLoop_open _ _ _ _ _ (by decide)]
  norm_num [initialApplyState, applyLoop_nil]

/-- C5: an AddData operation of count N decoded with an open old-file handle
writes exactly N bytes, the i-th being payload byte i plus the old-file byte
at the handle position plus i, modulo 256, and consumes N bytes from the
old-file context (the cursor advances by N). -/
theorem addData_decodes_bytewise (fs : List Nat → Option (List Nat)) (dir bs rest : List Nat)
    (st : ApplyState) (f : OldFile) (hf : st.currentFile = some f)
    (h64 : bs.length < 2 ^ 64) (hb : f.pos + bs.length ≤ f.contents.length) :
    ∃ out : List Nat,
      applyLoop fs dir (encodeOp (.addData bs) ++ rest) st =
        applyLoop fs dir rest
          { st with output := st.output ++ out,
                    currentFile := some { f with pos := f.pos + bs.length } } ∧
      out.length = bs.length ∧
      ∀ i, i < bs.length →
        out.getD i 0 = (bs.getD i 0 + f.contents.getD (f.pos + i) 0) % 256 := by
  have htk : ((f.contents.drop f.pos).take bs.length).length = bs.length := by
    simp only [List.length_take, List.length_drop]
    omega
  refine ⟨_, applyLoop_addData fs dir bs rest st f hf h64 hb, ?_, ?_⟩
  · simp only [List.length_zipWith, htk]
    omega
  · intro i hi
    have h1 : i < (List.zipWith (fun a b => (a + b) % 256) bs
        ((f.contents.drop f.pos).take bs.length)).length := by
      simp only [List.length_zipWith, htk]
      omega
    have h2 : i < ((f.contents.drop f.pos).take bs.length).length := by omega
    have h3 : i < f.contents.length - f.pos := by
      simp only [List.length_take, List.length_drop] at h2
      omega
    rw [List.getD_eq_getElem _ _ h1, List.getD_eq_getElem _ _ (by omega : i < bs.length),
      List.getD_eq_getElem _ _ (by omega : f.pos + i < f.contents.length)]
    rw [List.getElem_zipWith]
    congr 1
    rw [List.getElem_take, List.getElem_drop]

/-- Witness for addData_decodes_bytewise at the claim's concrete instance:
delta bytes [5, 9, 1] against old bytes [10, 250, 0] produce [15, 3, 1],
with wraparound on the 250 to 3 case. -/
theorem addData_decodes_bytewise_witness :
    ({ output := [], currentFile := some ⟨0, [10, 250, 0], 0⟩, nextId := 1,
       events := [] } : ApplyState).currentFile = some ⟨0, [10, 250, 0], 0⟩ ∧
    ([5, 9, 1] : List Nat).length < 2 ^ 64 ∧
    (0 : Nat) + ([5, 9, 1] : List Nat).length ≤ ([10, 250, 0] : List Nat).length ∧
    (∃ out : List Nat,
      applyLoop (fun _ => none) [] (encodeOp (.addData [5, 9, 1]) ++ [])
          { output := [], currentFile := some ⟨0, [10, 250, 0], 0⟩, nextId := 1, events := [] } =
        applyLoop (fun _ => none) []
          []
          { output := [] ++ out,
            currentFile := some ⟨0, [10, 250, 0], 0 + ([5, 9, 1] : List Nat).length⟩,
            nextId := 1, events := [] } ∧
      out.length = ([5, 9, 1] : List Nat).length ∧
      ∀ i, i < ([5, 9, 1] : List Nat).length →
        out.getD i 0 = (([5, 9, 1] : List Nat).getD i 0 +
          ([10, 250, 0] : List Nat).getD (0 + i) 0) % 256) ∧
    List.zipWith (fun a b => (a + b) % 256) [5, 9, 1] ([10, 250, 0] : List Nat) = [15, 3, 1] :=
  ⟨rfl, by decide, by decide,
    addData_decodes_bytewise (fun _ => none) [] [5, 9, 1] []
      { output := [], currentFile := some ⟨0, [10, 250, 0], 0⟩, nextId := 1, events := [] }
      ⟨0, [10, 250, 0], 0⟩ rfl (by decide) (by decide),
    by decide⟩

lemma applyLoop_datas (fs : List Nat → Option (List Nat)) (dir : List Nat)
    (pres : List (List Nat)) :
    ∀ st : ApplyState, (∀ bs ∈ pres, bs.length < 2 ^ 63) → ∀ tail,
      applyLoop fs dir ((pres.map (fun bs => encodeOp (.data bs))).flatten ++ tail) st =
        applyLoop fs dir tail { st with output := st.output ++ pres.flatten } := by
  induction pres with
  | nil =>
    intro st _ tail
    obtain ⟨o, cf, ni, ev⟩ := st
    simp
  | cons bs pres ih =>
    intro st hlen tail
    simp only [List.map_cons, List.flatten_cons, List.append_assoc]
    rw [applyLoop_data fs dir bs _ st (hlen bs (by simp))]
    rw [ih _ (fun b hb => hlen b (by simp [hb])) tail]
    simp [List.append_assoc]

/-- C7: any decoded stream whose operations are some Data operations
followed by a Copy, AddData or Seek with no Open in between fails at that
operation with the referential no-current-file error; the output contains
exactly the earlier Data payloads and nothing from the failing operation. -/
theorem apply_no_context_fails (fs : List Nat → Option (List Nat)) (dir : List Nat)
    (pres : List (List Nat)) (o : DeltaOp) (rest : List Nat)
    (hc : needsContext o = true) (ha : opArg o < 2 ^ 64)
    (hp : ∀ bs ∈ pres, bs.length < 2 ^ 63) :
    applyLoop fs dir
        ((pres.map (fun bs => encodeOp (.data bs))).flatten ++ (encodeOp o ++ rest))
        initialApplyState =
      ({ initialApplyState with output := pres.flatten }, some .noCurrentFile) := by
  rw [applyLoop_datas fs dir pres initialApplyState hp (encodeOp o ++ rest)]
  rw [applyLoop_noContext fs dir rest _ o rfl hc ha]
  rfl

/-- Witness for apply_no_context_fails: one Data op, then a Copy with no
preceding Open. -/
theorem apply_no_context_fails_witness :
    needsContext (DeltaOp.copy 1) = true ∧ opArg (DeltaOp.copy 1) < 2 ^ 64 ∧
    (∀ bs ∈ ([[7]] : List (List Nat)), bs.length < 2 ^ 63) ∧
    applyLoop (fun _ => none) []
        ((([[7]] : List (List Nat)).map (fun bs => encodeOp (.data bs))).flatten ++
          (encodeOp (DeltaOp.copy 1) ++ []))
        initialApplyState =
      ({ initialApplyState with output := ([[7]] : List (List Nat)).flatten },
        some .noCurrentFile) :=
  ⟨by decide, by decide, by decide,
    apply_no_context_fails (fun _ => none) [] [[7]] (DeltaOp.copy 1) []
      (by decide) (by decide) (by decide)⟩

/-- C10: an Open operation resolves its name by consulting the filesystem at
the plain byte concatenation extractedDir, slash, name, with no
normalization, validation or containment check; whatever entry the
filesystem has at that exact key (including keys whose name part contains
dot-dot components) is opened, and a missing entry fails the pass. -/
theorem open_resolves_concatenated_path (fs : List Nat → Option (List Nat))
    (dir name rest : List Nat) (st : ApplyState) (h : name.length < 2 ^ 64) :
    (fs (dir ++ 47 :: name) = none →
      applyLoop fs dir (encodeOp (.openFile name) ++ rest) st =
        ({ st with
             events := st.events ++ (match st.currentFile with
               | some f => [DeltaEvent.closed f.id]
               | none => []),
             currentFile := none }, some .openFailed)) ∧
    (∀ c, fs (dir ++ 47 :: name) = some c →
      applyLoop fs dir (encodeOp (.openFile name) ++ rest) st =
        applyLoop fs dir rest
          { st with
              events := (st.events ++ (match st.currentFile with
                | some f => [DeltaEvent.closed f.id]
                | none => [])) ++ [DeltaEvent.opened st.nextId],
              currentFile := some ⟨st.nextId, c, 0⟩,
              nextId := st.nextId + 1 }) := by
  constructor
  · intro hn
    rw [applyLoop_open fs dir name rest st h, hn]
  · intro c hc
    rw [applyLoop_open fs dir name rest st h, hc]

/-- Witness for open_resolves_concatenated_path with name "../x" (bytes
[46, 46, 47, 120]): the lookup key is literally dir/../x, i.e. the dot-dot
components pass through to the operating system and escape the extraction
root. -/
theorem open_resolves_concatenated_path_witness :
    (([46, 46, 47, 120] : List Nat).length < 2 ^ 64) ∧
    ([100] : List Nat) ++ 47 :: [46, 46, 47, 120] = [100, 47, 46, 46, 47, 120] ∧
    ((fun p => if p = [100, 47, 46, 46, 47, 120] then some ([9] : List Nat) else none)
      ([100] ++ 47 :: [46, 46, 47, 120]) = some [9]) ∧
    applyLoop (fun p => if p = [100, 47, 46, 46, 47, 120] then some ([9] : List Nat) else none)
        [100] (encodeOp (.openFile [46, 46, 47, 120]) ++ []) initialApplyState =
      applyLoop (fun p => if p = [100, 47, 46, 46, 47, 120] then some ([9] : List Nat) else none)
        [100] []
        { initialApplyState with
            events := (initialApplyState.events ++ (match initialApplyState.currentFile with
              | some f => [DeltaEvent.closed f.id]
              | none => [])) ++ [DeltaEvent.opened initialApplyState.nextId],
            currentFile := some ⟨initialApplyState.nextId, [9], 0⟩,
            nextId := initialApplyState.nextId + 1 } :=
  ⟨by decide, by decide, by decide,
    (open_resolves_concatenated_path
      (fun p => if p = [100, 47, 46, 46, 47, 120] then some ([9] : List Nat) else none)
      [100] [46, 46, 47, 120] [] initialApplyState (by decide)).2 [9] (by decide)⟩

lemma WriteContent_flush (d : DeltaWriter) (bs : List Nat)
    (hfl : deltaDataChunkSize ≤ (d.buffer ++ bs).length)
    (h64 : (d.buffer ++ bs).length < 2 ^ 64) :
    WriteContent d bs =
      { writer := d.writer, out := d.out ++ encodeOp (.data (d.buffer ++ bs)),
        buffer := [], currentFile := d.currentFile, currentPos := d.currentPos } := by
  obtain ⟨w, o, b, cf, cp⟩ := d
  simp only [WriteContent] at *
  rw [if_pos hfl]
  rw [FlushBuffer]
  rw [if_neg (by
    simp only []
    intro hc
    rw [hc] at hfl
    simp [deltaDataChunkSize] at hfl)]
  simp [writeOp, encodeOp]
  congr 1
  simp only [List.length_append] at h64
  omega

lemma WriteContent_hold (d : DeltaWriter) (bs : List Nat)
    (hfl : ¬ deltaDataChunkSize ≤ (d.buffer ++ bs).length) :
    WriteContent d bs = { d with buffer := d.buffer ++ bs } := by
  obtain ⟨w, o, b, cf, cp⟩ := d
  simp only [WriteContent] at *
  rw [if_neg hfl]

lemma writeLiterals_spec (bss : List (List Nat)) :
    ∀ d : DeltaWriter, d.buffer.length < deltaDataChunkSize →
      (∀ bs ∈ bss, bs.length < 2 ^ 62) →
      ∃ payloads : List (List Nat),
        (writeLiterals d bss).out =
          d.out ++ (payloads.map (fun p => encodeOp (.data p))).flatten ∧
        payloads.flatten ++ (writeLiterals d bss).buffer = d.buffer ++ bss.flatten ∧
        (∀ p ∈ payloads, deltaDataChunkSize ≤ p.length ∧ p.length < 2 ^ 63) ∧
        (writeLiterals d bss).buffer.length < deltaDataChunkSize := by
  induction bss with
  | nil =>
    intro d h1 _
    exact ⟨[], by simp [writeLiterals], by simp [writeLiterals], by simp, by
      simpa [writeLiterals] using h1⟩
  | cons bs bss ih =>
    intro d h1 h2
    rw [writeLiterals]
    by_cases hfl : deltaDataChunkSize ≤ (d.buffer ++ bs).length
    · have hlen : (d.buffer ++ bs).length < 2 ^ 63 := by
        have := h2 bs (by simp)
        simp only [List.length_append]
        simp only [deltaDataChunkSize] at h1
        omega
      rw [WriteContent_flush d bs hfl (by omega)]
      set d2 : DeltaWriter :=
        { writer := d.writer, out := d.out ++ encodeOp (.data (d.buffer ++ bs)),
          buffer := [], currentFile := d.currentFile, currentPos := d.currentPos } with hd2
      obtain ⟨ps, hout, hcat, hbound, hbuf⟩ := ih d2
        (by rw [hd2]; simp [deltaDataChunkSize])
        (fun b hb => h2 b (by simp [hb]))
      refine ⟨(d.buffer ++ bs) :: ps, ?_, ?_, ?_, hbuf⟩
      · rw [hout, hd2]
        simp [List.append_assoc]
      · simp only [List.flatten_cons, List.append_assoc, hcat, hd2]
        simp [List.append_assoc]
      · intro p hp
        rcases List.mem_cons.mp hp with rfl | hp
        · exact ⟨hfl, hlen⟩
        · exact hbound p hp
    · rw [WriteContent_hold d bs hfl]
      set d2 : DeltaWriter := { d with buffer := d.buffer ++ bs } with hd2
      obtain ⟨ps, hout, hcat, hbound, hbuf⟩ := ih d2
        (by
          show (d.buffer ++ bs).length < deltaDataChunkSize
          simp only [List.length_append] at hfl ⊢
          omega)
        (fun b hb => h2 b (by simp [hb]))
      refine ⟨ps, by simpa [hd2] using hout, ?_, hbound, hbuf⟩
      rw [hcat, hd2]
      simp [List.append_assoc]

/-- C9 as amended: over any sequence of write_literal calls on a fresh
encoder, the wire output consists exactly of whole Data operations whose
payloads were each flushed only on reaching the 4 MiB chunk threshold, the
concatenation of those payloads followed by the still-pending buffer equals
the concatenation of all bytes passed in call order (the payloads alone
equal it only once the buffer has just been flushed), the pending buffer
stays below the threshold, and as soon as the total input reaches the
threshold at least one Data operation has been emitted. -/
theorem writeLiteral_buffering (bss : List (List Nat))
    (hb : ∀ bs ∈ bss, bs.length < 2 ^ 62) :
    ∃ payloads : List (List Nat),
      (writeLiterals newDeltaWriter bss).out =
        (payloads.map (fun p => encodeOp (.data p))).flatten ∧
      payloads.flatten ++ (writeLiterals newDeltaWriter bss).buffer = bss.flatten ∧
      (∀ p ∈ payloads, deltaDataChunkSize ≤ p.length) ∧
      (writeLiterals newDeltaWriter bss).buffer.length < deltaDataChunkSize ∧
      (deltaDataChunkSize ≤ bss.flatten.length → payloads ≠ []) := by
  obtain ⟨ps, hout, hcat, hbound, hbuf⟩ := writeLiterals_spec bss newDeltaWriter
    (by simp [newDeltaWriter, deltaDataChunkSize]) hb
  refine ⟨ps, by simpa [newDeltaWriter] using hout, by simpa [newDeltaWriter] using hcat,
    fun p hp => (hbound p hp).1, hbuf, ?_⟩
  intro hlen hps
  subst hps
  simp only [List.flatten_nil, List.nil_append] at hcat
  have hbuflen : (writeLiterals newDeltaWriter bss).buffer.length = bss.flatten.length := by
    rw [hcat]
    simp [newDeltaWriter]
  omega

/-- Witness for writeLiteral_buffering at the one-call sequence [[7]]. -/
theorem writeLiteral_buffering_witness :
    (∀ bs ∈ ([[7]] : List (List Nat)), bs.length < 2 ^ 62) ∧
    (∃ payloads : List (List Nat),
      (writeLiterals newDeltaWriter [[7]]).out =
        (payloads.map (fun p => encodeOp (.data p))).flatten ∧
      payloads.flatten ++ (writeLiterals newDeltaWriter [[7]]).buffer =
        ([[7]] : List (List Nat)).flatten ∧
      (∀ p ∈ payloads, deltaDataChunkSize ≤ p.length) ∧
      (writeLiterals newDeltaWriter [[7]]).buffer.length < deltaDataChunkSize ∧
      (deltaDataChunkSize ≤ ([[7]] : List (List Nat)).flatten.length → payloads ≠ [])) :=
  ⟨by decide, writeLiteral_buffering [[7]] (by decide)⟩

/-- C9 counterexample: a single write_literal of one byte emits no Data
operation at all (the byte stays in the pending buffer), so the
concatenation of emitted Data payloads is empty and differs from the
concatenation of the bytes passed to write_literal. -/
theorem writeLiteral_pending_not_emitted :
    (WriteContent newDeltaWriter [7]).out = [] ∧
    (WriteContent newDeltaWriter [7]).buffer = [7] ∧
    ([7] : List Nat) ≠ [] := by
  decide

/-! ### Round trip of the flush-closed encoder against the applier -/

lemma Close_out (d : DeltaWriter) : (Close d).out = d.out := by
  rw [Close]
  split <;> rfl

lemma Close_buffer (d : DeltaWriter) : (Close d).buffer = d.buffer := by
  rw [Close]
  split <;> rfl

lemma FlushBuffer_emit (d : DeltaWriter) (h64 : d.buffer.length < 2 ^ 64)
    (hne : d.buffer ≠ []) :
    FlushBuffer d =
      { writer := d.writer, out := d.out ++ encodeOp (.data d.buffer), buffer := [],
        currentFile := d.currentFile, currentPos := d.currentPos } := by
  obtain ⟨w, o, b, cf, cp⟩ := d
  rw [FlushBuffer]
  simp only at hne h64 ⊢
  rw [if_neg hne]
  simp [writeOp, encodeOp]
  congr 1
  omega

lemma sim_flush (fs : List Nat → Option (List Nat)) (dir : List Nat) (d : DeltaWriter)
    (hlen : d.buffer.length < deltaDataChunkSize) :
    ∃ δ, (FlushBuffer d).out = d.out ++ δ ∧
      (FlushBuffer d).buffer = [] ∧
      (FlushBuffer d).currentFile = d.currentFile ∧
      (FlushBuffer d).currentPos = d.currentPos ∧
      (FlushBuffer d).writer = d.writer ∧
      ∀ rest st, applyLoop fs dir (δ ++ rest) st =
        applyLoop fs dir rest { st with output := st.output ++ d.buffer } := by
  by_cases hb : d.buffer = []
  · refine ⟨[], by simp [FlushBuffer, hb], by simp [FlushBuffer, hb],
      by simp [FlushBuffer, hb], by simp [FlushBuffer, hb], by simp [FlushBuffer, hb], ?_⟩
    intro rest st
    obtain ⟨o, cf, ni, ev⟩ := st
    simp [hb]
  · have h64 : d.buffer.length < 2 ^ 64 := by
      simp only [deltaDataChunkSize] at hlen
      omega
    rw [FlushBuffer_emit d h64 hb]
    refine ⟨encodeOp (.data d.buffer), rfl, rfl, rfl, rfl, rfl, ?_⟩
    intro rest st
    exact applyLoop_data fs dir d.buffer rest st
      (by simp only [deltaDataChunkSize] at hlen; omega)

lemma simStep_writeLiteral (fs : List Nat → Option (List Nat)) (dir : List Nat)
    (σ : PlanState) (d : DeltaWriter) (s : ApplyState) (bs : List Nat)
    (hInv : Inv fs dir σ d s) (hv : bs.length < 2 ^ 62) :
    ∃ δ s2, (WriteContent d bs).out = d.out ++ δ ∧
      Inv fs dir (specStep (oldTree fs dir) σ (.writeLiteral bs)) (WriteContent d bs) s2 ∧
      ∀ rest, applyLoop fs dir (δ ++ rest) s = applyLoop fs dir rest s2 := by
  obtain ⟨hbuf, hout, hcur⟩ := hInv
  obtain ⟨sc, sp, so⟩ := σ
  by_cases hfl : deltaDataChunkSize ≤ (d.buffer ++ bs).length
  · have hlen63 : (d.buffer ++ bs).length < 2 ^ 63 := by
      simp only [List.length_append, deltaDataChunkSize] at hbuf hfl ⊢
      omega
    rw [WriteContent_flush d bs hfl (by omega)]
    refine ⟨encodeOp (.data (d.buffer ++ bs)),
      { s with output := s.output ++ (d.buffer ++ bs) }, rfl, ?_, ?_⟩
    · refine ⟨by simp [deltaDataChunkSize], ?_, ?_⟩
      · show (s.output ++ (d.buffer ++ bs)) ++ [] = so ++ bs
        rw [List.append_nil, ← List.append_assoc, hout]
      · rcases hcur with ⟨h1, h2, h3⟩ | ⟨n, c, i, h1, h2, h3, h4, h5, h6, h7, h8⟩
        · exact Or.inl ⟨h1, h2, h3⟩
        · exact Or.inr ⟨n, c, i, h1, h2, h3, h4, h5, h6, h7, h8⟩
    · intro rest
      exact applyLoop_data fs dir (d.buffer ++ bs) rest s (by omega)
  · rw [WriteContent_hold d bs hfl]
    refine ⟨[], s, by simp, ?_, fun rest => by simp⟩
    refine ⟨?_, ?_, ?_⟩
    · show (d.buffer ++ bs).length < deltaDataChunkSize
      omega
    · show s.output ++ (d.buffer ++ bs) = so ++ bs
      rw [← List.append_assoc, hout]
    · rcases hcur with ⟨h1, h2, h3⟩ | ⟨n, c, i, h1, h2, h3, h4, h5, h6, h7, h8⟩
      · exact Or.inl ⟨h1, h2, h3⟩
      · exact Or.inr ⟨n, c, i, h1, h2, h3, h4, h5, h6, h7, h8⟩

lemma simStep_setCurrentFile (fs : List Nat → Option (List Nat)) (dir : List Nat)
    (σ : PlanState) (d : DeltaWriter) (s : ApplyState) (n : List Nat)
    (hInv : Inv fs dir σ d s)
    (hv : validStep (oldTree fs dir) σ (.setCurrentFile n)) :
    ∃ δ s2, (SetCurrentFile d n).out = d.out ++ δ ∧
      Inv fs dir (specStep (oldTree fs dir) σ (.setCurrentFile n)) (SetCurrentFile d n) s2 ∧
      ∀ rest, applyLoop fs dir (δ ++ rest) s = applyLoop fs dir rest s2 := by
  obtain ⟨hbuf, hout, hcur⟩ := hInv
  obtain ⟨hne, hlen, hT⟩ := hv
  rcases hc : oldTree fs dir n with _ | c
  · rw [hc] at hT
    exact hT.elim
  rw [hc] at hT
  have hc2 : fs (dir ++ 47 :: n) = some c := hc
  by_cases hsame : σ.cur = some n
  · rcases hcur with ⟨h1, h2, h3⟩ | ⟨m, c2, i, h1, h2, h3, h4, h5, h6, h7, h8⟩
    · rw [hsame] at h1
      cases h1
    · have hmn : m = n := by
        rw [hsame] at h1
        injection h1 with h1
        exact h1.symm
      subst hmn
      rw [SetCurrentFile, if_neg (by rw [h3]; simp)]
      refine ⟨[], s, by simp, ?_, fun rest => by simp⟩
      simp only [specStep]
      rw [if_pos hsame]
      exact ⟨hbuf, hout, Or.inr ⟨m, c2, i, h1, h2, h3, h4, h5, h6, h7, h8⟩⟩
  · have hdne : d.currentFile ≠ n := by
      rcases hcur with ⟨h1, h2, h3⟩ | ⟨m, c2, i, h1, h2, h3, h4, h5, h6, h7, h8⟩
      · rw [h2]
        exact fun hc3 => hne hc3.symm
      · rw [h3]
        intro hc3
        exact hsame (by rw [h1, hc3])
    obtain ⟨δf, hfout, hfbuf, hfcf, hfcp, hfw, hfapp⟩ := sim_flush fs dir d hbuf
    have hemit : SetCurrentFile d n =
        { writer := (FlushBuffer d).writer,
          out := d.out ++ (δf ++ encodeOp (.openFile n)),
          buffer := (FlushBuffer d).buffer, currentFile := n, currentPos := 0 } := by
      rw [SetCurrentFile, if_pos hdne]
      simp only [writeOp, encodeOp]
      rw [hfout]
      have hm : n.length % 2 ^ 64 = n.length := by omega
      rw [hm]
      simp [List.append_assoc]
    have hspec : specStep (oldTree fs dir) σ (.setCurrentFile n) =
        { σ with cur := some n, pos := 0 } := by
      simp only [specStep]
      rw [if_neg hsame]
    rw [hemit, hspec]
    refine ⟨δf ++ encodeOp (.openFile n),
      { s with
          output := s.output ++ d.buffer,
          events := (({ s with output := s.output ++ d.buffer } : ApplyState).events ++
            (match ({ s with output := s.output ++ d.buffer } : ApplyState).currentFile with
              | some f => [DeltaEvent.closed f.id]
              | none => [])) ++ [DeltaEvent.opened s.nextId],
          currentFile := some ⟨s.nextId, c, 0⟩,
          nextId := s.nextId + 1 }, rfl, ?_, ?_⟩
    · refine ⟨by rw [hfbuf]; simp [deltaDataChunkSize], ?_, ?_⟩
      · show (s.output ++ d.buffer) ++ (FlushBuffer d).buffer = σ.output
        rw [hfbuf, List.append_nil, hout]
      · exact Or.inr ⟨n, c, s.nextId, rfl, hne, rfl, by norm_num, rfl, hc2, hT, rfl⟩
    · intro rest
      rw [List.append_assoc, hfapp]
      rw [applyLoop_open fs dir n rest _ (by omega)]
      rw [hc2]

lemma simStep_seek (fs : List Nat → Option (List Nat)) (dir : List Nat)
    (σ : PlanState) (d : DeltaWriter) (s : ApplyState) (p : Nat)
    (hInv : Inv fs dir σ d s) (hv : validStep (oldTree fs dir) σ (.seek p)) :
    ∃ δ s2, (Seek d p).out = d.out ++ δ ∧
      Inv fs dir (specStep (oldTree fs dir) σ (.seek p)) (Seek d p) s2 ∧
      ∀ rest, applyLoop fs dir (δ ++ rest) s = applyLoop fs dir rest s2 := by
  obtain ⟨hbuf, hout, hcur⟩ := hInv
  obtain ⟨hcne, hp⟩ := hv
  rcases hcur with ⟨h1, h2, h3⟩ | ⟨n, c, i, h1, h2, h3, h4, h5, h6, h7, h8⟩
  · exact absurd h1 hcne
  have hspec : specStep (oldTree fs dir) σ (.seek p) = { σ with pos := p } := rfl
  rw [hspec]
  by_cases heq : d.currentPos = p
  · have hsp : σ.pos = p := by rw [← h5, heq]
    rw [Seek, if_pos heq]
    refine ⟨[], s, by simp, ?_, fun rest => by simp⟩
    refine ⟨hbuf, hout, Or.inr ⟨n, c, i, h1, h2, h3, hp, heq, h6, h7, ?_⟩⟩
    rw [h8, hsp]
  · obtain ⟨δf, hfout, hfbuf, hfcf, hfcp, hfw, hfapp⟩ := sim_flush fs dir d hbuf
    have hemit : Seek d p =
        { writer := (FlushBuffer d).writer, out := d.out ++ (δf ++ encodeOp (.seek p)),
          buffer := (FlushBuffer d).buffer, currentFile := (FlushBuffer d).currentFile,
          currentPos := p } := by
      rw [Seek, if_neg heq]
      simp only [writeOp, encodeOp]
      rw [hfout]
      have hm : p % 2 ^ 64 = p := by omega
      rw [hm]
      simp [List.append_assoc]
    rw [hemit]
    refine ⟨δf ++ encodeOp (.seek p),
      { s with output := s.output ++ d.buffer, currentFile := some ⟨i, c, p⟩ },
      rfl, ?_, ?_⟩
    · refine ⟨by rw [hfbuf]; simp [deltaDataChunkSize], ?_, ?_⟩
      · show (s.output ++ d.buffer) ++ (FlushBuffer d).buffer = σ.output
        rw [hfbuf, List.append_nil, hout]
      · exact Or.inr ⟨n, c, i, h1, h2, by rw [hfcf, h3], hp, rfl, h6, h7, rfl⟩
    · intro rest
      rw [List.append_assoc, hfapp]
      exact applyLoop_seekOp fs dir rest _ ⟨i, c, σ.pos⟩ p h8 hp

lemma simStep_seekForward (fs : List Nat → Option (List Nat)) (dir : List Nat)
    (σ : PlanState) (d : DeltaWriter) (s : ApplyState) (off : Nat)
    (hInv : Inv fs dir σ d s) (hv : validStep (oldTree fs dir) σ (.seekForward off)) :
    ∃ δ s2, (SeekForward d off).out = d.out ++ δ ∧
      Inv fs dir (specStep (oldTree fs dir) σ (.seekForward off)) (SeekForward d off) s2 ∧
      ∀ rest, applyLoop fs dir (δ ++ rest) s = applyLoop fs dir rest s2 := by
  obtain ⟨hbuf, hout, hcur⟩ := hInv
  obtain ⟨hcne, hp⟩ := hv
  rcases hcur with ⟨h1, h2, h3⟩ | ⟨n, c, i, h1, h2, h3, h4, h5, h6, h7, h8⟩
  · exact absurd h1 hcne
  have hspec : specStep (oldTree fs dir) σ (.seekForward off) =
      { σ with pos := σ.pos + off } := rfl
  rw [hspec]
  have hmod : (d.currentPos + off) % 2 ^ 64 = σ.pos + off := by
    rw [h5]
    omega
  set d1 : DeltaWriter := { d with currentPos := (d.currentPos + off) % 2 ^ 64 } with hd1
  have hbuf1 : d1.buffer.length < deltaDataChunkSize := hbuf
  obtain ⟨δf, hfout, hfbuf, hfcf, hfcp, hfw, hfapp⟩ := sim_flush fs dir d1 hbuf1
  have hemit : SeekForward d off =
      { writer := (FlushBuffer d1).writer,
        out := d.out ++ (δf ++ encodeOp (.seek (σ.pos + off))),
        buffer := (FlushBuffer d1).buffer, currentFile := (FlushBuffer d1).currentFile,
        currentPos := (FlushBuffer d1).currentPos } := by
    rw [SeekForward]
    simp only [← hd1, writeOp, encodeOp]
    rw [hfout, hfcp]
    have hm : d1.currentPos = σ.pos + off := hmod
    rw [hm]
    have hm2 : (σ.pos + off) % 2 ^ 64 = σ.pos + off := by omega
    rw [hm2]
    simp [List.append_assoc, hd1]
  rw [hemit]
  refine ⟨δf ++ encodeOp (.seek (σ.pos + off)),
    { s with output := s.output ++ d.buffer, currentFile := some ⟨i, c, σ.pos + off⟩ },
    rfl, ?_, ?_⟩
  · refine ⟨by rw [hfbuf]; simp [deltaDataChunkSize], ?_, ?_⟩
    · show (s.output ++ d.buffer) ++ (FlushBuffer d1).buffer = σ.output
      rw [hfbuf, List.append_nil, hout]
    · refine Or.inr ⟨n, c, i, h1, h2, ?_, hp, by rw [hfcp]; exact hmod, h6, h7, rfl⟩
      rw [hfcf]
      exact h3
  · intro rest
    rw [List.append_assoc, hfapp]
    exact applyLoop_seekOp fs dir rest _ ⟨i, c, σ.pos⟩ (σ.pos + off) h8 hp

lemma simStep_copy (fs : List Nat → Option (List Nat)) (dir : List Nat)
    (σ : PlanState) (d : DeltaWriter) (s : ApplyState) (sz : Nat)
    (hInv : Inv fs dir σ d s) (hv : validStep (oldTree fs dir) σ (.copy sz)) :
    ∃ δ s2, (CopyFile d sz).out = d.out ++ δ ∧
      Inv fs dir (specStep (oldTree fs dir) σ (.copy sz)) (CopyFile d sz) s2 ∧
      ∀ rest, applyLoop fs dir (δ ++ rest) s = applyLoop fs dir rest s2 := by
  obtain ⟨hbuf, hout, hcur⟩ := hInv
  rcases hcur with ⟨h1, h2, h3⟩ | ⟨n, c, i, h1, h2, h3, h4, h5, h6, h7, h8⟩
  · simp only [validStep, h1] at hv
  simp only [validStep, h1] at hv
  have h6T : oldTree fs dir n = some c := h6
  rw [h6T] at hv
  have hvb : σ.pos + sz ≤ c.length := hv
  have hcc : curContents (oldTree fs dir) σ = c := by
    simp only [curContents, h1, h6T, Option.getD_some]
  have hspec : specStep (oldTree fs dir) σ (.copy sz) =
      { σ with output := σ.output ++ (c.drop σ.pos).take sz, pos := σ.pos + sz } := by
    simp only [specStep, hcc]
  rw [hspec]
  obtain ⟨δf, hfout, hfbuf, hfcf, hfcp, hfw, hfapp⟩ := sim_flush fs dir d hbuf
  have hemit : CopyFile d sz =
      { writer := (FlushBuffer d).writer, out := d.out ++ (δf ++ encodeOp (.copy sz)),
        buffer := (FlushBuffer d).buffer, currentFile := (FlushBuffer d).currentFile,
        currentPos := σ.pos + sz } := by
    rw [CopyFile]
    simp only [writeOp, encodeOp]
    rw [hfout, hfcp, h5]
    have hm : sz % 2 ^ 64 = sz := by omega
    have hm2 : (σ.pos + sz) % 2 ^ 64 = σ.pos + sz := by omega
    rw [hm, hm2]
    simp [List.append_assoc]
  rw [hemit]
  refine ⟨δf ++ encodeOp (.copy sz),
    { s with output := (s.output ++ d.buffer) ++ (c.drop σ.pos).take sz,
             currentFile := some ⟨i, c, σ.pos + sz⟩ },
    rfl, ?_, ?_⟩
  · refine ⟨by rw [hfbuf]; simp [deltaDataChunkSize], ?_, ?_⟩
    · show ((s.output ++ d.buffer) ++ (c.drop σ.pos).take sz) ++ (FlushBuffer d).buffer =
        σ.output ++ (c.drop σ.pos).take sz
      rw [hfbuf, List.append_nil, hout]
    · refine Or.inr ⟨n, c, i, h1, h2, ?_, by show σ.pos + sz < 2 ^ 63; omega, rfl, h6, h7, rfl⟩
      rw [hfcf]
      exact h3
  · intro rest
    rw [List.append_assoc, hfapp]
    have := applyLoop_copy fs dir rest
      { s with output := s.output ++ d.buffer } ⟨i, c, σ.pos⟩ sz h8 (by omega) (by simpa using hvb)
    simpa using this

lemma simStep_writeAddDelta (fs : List Nat → Option (List Nat)) (dir : List Nat)
    (σ : PlanState) (d : DeltaWriter) (s : ApplyState) (bs : List Nat)
    (hInv : Inv fs dir σ d s) (hv : validStep (oldTree fs dir) σ (.writeAddDelta bs)) :
    ∃ δ s2, (WriteAddContent d bs).out = d.out ++ δ ∧
      Inv fs dir (specStep (oldTree fs dir) σ (.writeAddDelta bs)) (WriteAddContent d bs) s2 ∧
      ∀ rest, applyLoop fs dir (δ ++ rest) s = applyLoop fs dir rest s2 := by
  obtain ⟨hbuf, hout, hcur⟩ := hInv
  rcases hcur with ⟨h1, h2, h3⟩ | ⟨n, c, i, h1, h2, h3, h4, h5, h6, h7, h8⟩
  · simp only [validStep, h1] at hv
  simp only [validStep, h1] at hv
  have h6T : oldTree fs dir n = some c := h6
  rw [h6T] at hv
  have hvb : σ.pos + bs.length ≤ c.length := hv
  have hcc : curContents (oldTree fs dir) σ = c := by
    simp only [curContents, h1, h6T, Option.getD_some]
  have hspec : specStep (oldTree fs dir) σ (.writeAddDelta bs) =
      { σ with
          output := σ.output ++ List.zipWith (fun a b => (a + b) % 256) bs
            ((c.drop σ.pos).take bs.length),
          pos := σ.pos + bs.length } := by
    simp only [specStep, hcc]
  rw [hspec]
  obtain ⟨δf, hfout, hfbuf, hfcf, hfcp, hfw, hfapp⟩ := sim_flush fs dir d hbuf
  have hemit : WriteAddContent d bs =
      { writer := (FlushBuffer d).writer, out := d.out ++ (δf ++ encodeOp (.addData bs)),
        buffer := (FlushBuffer d).buffer, currentFile := (FlushBuffer d).currentFile,
        currentPos := σ.pos + bs.length } := by
    rw [WriteAddContent]
    simp only [writeOp, encodeOp]
    rw [hfout, hfcp, h5]
    have hm : bs.length % 2 ^ 64 = bs.length := by omega
    have hm2 : (σ.pos + bs.length) % 2 ^ 64 = σ.pos + bs.length := by omega
    rw [hm, hm2]
    simp [List.append_assoc]
  rw [hemit]
  refine ⟨δf ++ encodeOp (.addData bs),
    { s with
        output := (s.output ++ d.buffer) ++ List.zipWith (fun a b => (a + b) % 256) bs
          ((c.drop σ.pos).take bs.length),
        currentFile := some ⟨i, c, σ.pos + bs.length⟩ },
    rfl, ?_, ?_⟩
  · refine ⟨by rw [hfbuf]; simp [deltaDataChunkSize], ?_, ?_⟩
    · show ((s.output ++ d.buffer) ++ List.zipWith (fun a b => (a + b) % 256) bs
          ((c.drop σ.pos).take bs.length)) ++ (FlushBuffer d).buffer =
        σ.output ++ List.zipWith (fun a b => (a + b) % 256) bs ((c.drop σ.pos).take bs.length)
      rw [hfbuf, List.append_nil, hout]
    · refine Or.inr ⟨n, c, i, h1, h2, ?_,
        by show σ.pos + bs.length < 2 ^ 63; omega, rfl, h6, h7, rfl⟩
      rw [hfcf]
      exact h3
  · intro rest
    rw [List.append_assoc, hfapp]
    have := applyLoop_addData fs dir bs rest
      { s with output := s.output ++ d.buffer } ⟨i, c, σ.pos⟩ h8 (by omega) (by simpa using hvb)
    simpa using this

lemma simStep (fs : List Nat → Option (List Nat)) (dir : List Nat)
    (σ : PlanState) (d : DeltaWriter) (s : ApplyState) (v : Verb)
    (hInv : Inv fs dir σ d s) (hv : validStep (oldTree fs dir) σ v) :
    ∃ δ s2, (runVerb d v).out = d.out ++ δ ∧
      Inv fs dir (specStep (oldTree fs dir) σ v) (runVerb d v) s2 ∧
      ∀ rest, applyLoop fs dir (δ ++ rest) s = applyLoop fs dir rest s2 := by
  cases v with
  | writeLiteral bs => exact simStep_writeLiteral fs dir σ d s bs hInv hv
  | setCurrentFile n => exact simStep_setCurrentFile fs dir σ d s n hInv hv
  | seek p => exact simStep_seek fs dir σ d s p hInv hv
  | seekForward off => exact simStep_seekForward fs dir σ d s off hInv hv
  | copy sz => exact simStep_copy fs dir σ d s sz hInv hv
  | writeAddDelta bs => exact simStep_writeAddDelta fs dir σ d s bs hInv hv

lemma simRun (fs : List Nat → Option (List Nat)) (dir : List Nat) (vs : List Verb) :
    ∀ σ d s, Inv fs dir σ d s → ValidPlan (oldTree fs dir) σ vs →
      ∃ δ s2, (runPlan d vs).out = d.out ++ δ ∧
        Inv fs dir (specRun (oldTree fs dir) σ vs) (runPlan d vs) s2 ∧
        ∀ rest, applyLoop fs dir (δ ++ rest) s = applyLoop fs dir rest s2 := by
  induction vs with
  | nil =>
    intro σ d s h _
    exact ⟨[], s, by simp [runPlan], h, fun rest => by simp⟩
  | cons v vs ih =>
    intro σ d s h hvp
    obtain ⟨hv, hvp2⟩ := hvp
    obtain ⟨δ1, s1, hout1, hInv1, happ1⟩ := simStep fs dir σ d s v h hv
    obtain ⟨δ2, s2, hout2, hInv2, happ2⟩ := ih _ _ _ hInv1 hvp2
    refine ⟨δ1 ++ δ2, s2, ?_, hInv2, ?_⟩
    · rw [runPlan, hout2, hout1, List.append_assoc]
    · intro rest
      rw [List.append_assoc, happ1, happ2]

/-- With the pending buffer explicitly flushed before Close, encoding any
plan that is valid against the extracted tree and applying the resulting
delta reproduces exactly the byte stream the plan implies, and the pass
succeeds. This is the round trip the spec states for close-flushing
encoders; without the explicit flush, trailing buffered literals are lost. -/
theorem applyDelta_roundTrip (fs : List Nat → Option (List Nat)) (dir : List Nat)
    (vs : List Verb)
    (hvp : ValidPlan (oldTree fs dir) { cur := none, pos := 0, output := [] } vs) :
    (ApplyDelta fs
        (deltaHeader ++ (Close (FlushBuffer (runPlan newDeltaWriter vs))).out)
        dir).1.output = impliedOutput (oldTree fs dir) vs ∧
    (ApplyDelta fs
        (deltaHeader ++ (Close (FlushBuffer (runPlan newDeltaWriter vs))).out)
        dir).2 = none := by
  have hInv0 : Inv fs dir { cur := none, pos := 0, output := [] } newDeltaWriter
      initialApplyState :=
    ⟨by simp [newDeltaWriter, deltaDataChunkSize],
      by simp [newDeltaWriter, initialApplyState], Or.inl ⟨rfl, rfl, rfl⟩⟩
  obtain ⟨δ, s2, hout, hInv, happ⟩ := simRun fs dir vs _ _ _ hInv0 hvp
  obtain ⟨hbuf2, hout2, _⟩ := hInv
  obtain ⟨δf, hfout, hfbuf, _, _, _, hfapp⟩ :=
    sim_flush fs dir (runPlan newDeltaWriter vs) hbuf2
  have hstream : (Close (FlushBuffer (runPlan newDeltaWriter vs))).out = δ ++ δf := by
    rw [Close_out, hfout, hout]
    simp [newDeltaWriter]
  rw [hstream, ApplyDelta_header]
  have hrun : applyLoop fs dir (δ ++ δf) initialApplyState =
      applyLoop fs dir []
        { s2 with output := s2.output ++ (runPlan newDeltaWriter vs).buffer } := by
    rw [show δ ++ δf = δ ++ (δf ++ []) by simp, happ, hfapp]
  rw [hrun, applyLoop_nil]
  constructor
  · show s2.output ++ (runPlan newDeltaWriter vs).buffer = _
    rw [hout2]
    rfl
  · rfl

/-- The spec's end-to-end scenario, through the round trip: the old file a
(byte 97) under the extraction root contains the bytes of "hello world"; the
plan opens a, copies the 6 bytes of "hello ", add-deltas the 5 bytes of
"world" into "earth" with delta bytes new minus old modulo 256, then writes
the literal bytes of "new". Applying the flushed-and-closed delta yields
exactly the bytes of "hello earth" followed by "new". -/
theorem endToEnd_scenario :
    (ApplyDelta (fun p => if p = [100, 47, 97] then
        some [104, 101, 108, 108, 111, 32, 119, 111, 114, 108, 100] else none)
      (deltaHeader ++ (Close (FlushBuffer (runPlan newDeltaWriter
        [Verb.setCurrentFile [97], Verb.copy 6, Verb.writeAddDelta [238, 242, 0, 8, 4],
          Verb.writeLiteral [110, 101, 119]]))).out)
      [100]).1.output =
    [104, 101, 108, 108, 111, 32, 101, 97, 114, 116, 104, 110, 101, 119] := by
  have h := applyDelta_roundTrip
    (fun p => if p = [100, 47, 97] then
      some [104, 101, 108, 108, 111, 32, 119, 111, 114, 108, 100] else none)
    [100]
    [Verb.setCurrentFile [97], Verb.copy 6, Verb.writeAddDelta [238, 242, 0, 8, 4],
      Verb.writeLiteral [110, 101, 119]]
    (by simp [ValidPlan, validStep, specStep, oldTree, curContents])
  rw [h.1]
  simp [impliedOutput, specRun, specStep, oldTree, curContents]

end TarDiff
